import Mathlib

/-!
Shallow embedding of the PDB Analyzer microarray script (`main.py`) and
verification of its specified properties.

Modelling conventions:
* CSV parsing of numeric fields is the boundary: expression values are `ℚ`
  (exact rationals standing for the parsed floats), rows are lists.
* Python exceptions (`ZeroDivisionError`, `IndexError`, `KeyError`,
  `ValueError`, `StopIteration`) are modelled by `Option`: a raised,
  uncaught exception is `none`.
* Python `dict`s are insertion-ordered association lists; assignment to an
  existing key replaces its value in place, assignment to a fresh key
  appends at the end.
* `logging.error` is modelled by a log field accumulating messages.
-/

namespace PDB

/-- Gene identifiers (column 2 of the probes file). -/
abbrev GeneId := String

/-- The `Probe` namedtuple of `main.py`: one parsed row of the probes file. -/
structure Probe where
  probe_id : String
  probe_name : String
  gene_id : GeneId
  gene_symbol : String
  gene_name : String
  entrez_id : String
  chromosome : String
  deriving DecidableEq, Repr

/-- One row of the expression matrix: leading probe identifier, then the
per-sample expression values (already parsed from text by `map(float, ...)`). -/
abbrev MicroRow := String × List ℚ

/-- The structure-to-positions mapping produced by `get_sample_index`
(`sample_indices` in `main.py`).  Positions are `Int` because the source
computes `line_index - 1`, which can be `-1`. -/
abbrev Sidx := List (String × List Int)

/-- Python dict assignment `d[k] = v` on an insertion-ordered association
list: replace the value of the first occurrence of `k` in place, otherwise
append `(k, v)` at the end. -/
def dictSet {α : Type} : List (String × α) → String → α → List (String × α)
  | [], k, v => [(k, v)]
  | (k', v') :: rest, k, v =>
      if k' = k then (k, v) :: rest else (k', v') :: dictSet rest k v

/-- Python `d[k].append(x)` for a dict of lists: append `x` to the list
stored under `k`.  In the source the key is always present (the dicts are
initialised over the same structure list), so no `KeyError` arises. -/
def dictAppend {α : Type} : List (String × List α) → String → α → List (String × List α)
  | [], _, _ => []
  | (k', v') :: rest, k, x =>
      if k' = k then (k', v' ++ [x]) :: dictAppend rest k x
      else (k', v') :: dictAppend rest k x

/-- The dict comprehension `{structure: v for structure in structures}`:
duplicate names collapse onto a single key (re-assignment keeps the
first-insertion position). -/
def initDict {α : Type} (structures : List String) (v : α) :
    List (String × α) :=
  structures.foldl
    (fun acc s => if (List.lookup s acc).isSome then acc else acc ++ [(s, v)])
    []

/-- Python list indexing `xs[i]`: a negative index counts from the end;
an index out of range raises `IndexError` (modelled as `none`). -/
def pyGet (xs : List ℚ) (i : Int) : Option ℚ :=
  if 0 ≤ i then xs.get? i.toNat
  else if 0 ≤ i + xs.length then xs.get? (i + xs.length).toNat else none

/-- The `calc_average` function of `main.py`: `sum(values) / len(values)`.
On an empty value list Python raises `ZeroDivisionError` (`none`). -/
def calc_average (values : List ℚ) : Option ℚ :=
  if values.isEmpty then none
  else some (values.sum / (values.length : ℚ))

/-! ## Sample indexer (`get_sample_index`) -/

/-- Column index of the structure acronym (`SampleFilter.STRUCTURE_ACRONYM`). -/
def structureAcronymCol : Nat := 4

/-- Loop body of `get_sample_index`: `i` is the `enumerate` counter over the
data rows (the header was already consumed by `next`), and the source
appends `line_index - 1`.  A data row with no column 4 raises `IndexError`. -/
def gsiLoop (structures : List String) :
    List (String × List Int) → Int → List (List String) →
      Option (List (String × List Int))
  | acc, _, [] => some acc
  | acc, i, line :: rest =>
      match line.get? structureAcronymCol with
      | none => none
      | some acr =>
          let acc' := structures.foldl
            (fun a s => if s = acr then dictAppend a s (i - 1) else a) acc
          gsiLoop structures acc' (i + 1) rest

/-- The `get_sample_index` function of `main.py`.  The input is the raw CSV
row list including the header row; `next(sample_csv)` consumes the header
(raising `StopIteration` on an empty file), then the loop records
`line_index - 1` for every row whose acronym column equals a requested
structure name. -/
def get_sample_index (rows : List (List String)) (structures : List String) :
    Option (List (String × List Int)) :=
  match rows with
  | [] => none
  | _header :: dataRows =>
      gsiLoop structures (initDict structures ([] : List Int)) 0 dataRows

/-! ## Expression aggregator (`analyze_microarray`) -/

/-- The `brain_region_array_values` groups of one expression row: for each
structure (in `sample_indices` order), the row's values at that structure's
recorded positions.  The dict comprehension and the list comprehension
`[[micro_values[index] for index in indices] for indices in
sample_indices.values()]` in the source produce exactly these value groups
in this order. -/
def regionValues (si : Sidx) (vs : List ℚ) : Option (List (List ℚ)) :=
  si.mapM (fun p => p.2.mapM (pyGet vs))

/-- The three per-gene dicts mutated by `analyze_microarray`. -/
structure AData where
  probes : List (GeneId × Probe)
  averages : List (GeneId × ℚ)
  array : List (GeneId × List (List ℚ))
  deriving DecidableEq, Repr

/-- Aggregator state: the per-gene dicts plus the accumulated log lines. -/
structure AState where
  data : AData
  log : List String
  deriving DecidableEq, Repr

/-- The empty aggregator state at the start of `analyze_microarray`. -/
def initAState : AState := ⟨⟨[], [], []⟩, []⟩

/-- The message passed to `logging.error` on a probe-identifier mismatch. -/
def mismatchMsg : String :=
  "Error: Files are not ordered. Could not match Probe IDs"

/-- Store one row's data for its gene in all three dicts, as the two
assignment blocks of `analyze_microarray` do. -/
def updateData (d : AData) (g : GeneId) (probe : Probe) (a : ℚ)
    (groups : List (List ℚ)) : AData :=
  ⟨dictSet d.probes g probe, dictSet d.averages g a, dictSet d.array g groups⟩

/-- The per-row bookkeeping of `analyze_microarray` on the three dicts:
compute the row average and the structure value groups, then either the
replacement branch (gene already present: keep the higher average,
replacing only on a strict increase) or the admission branch (new gene:
admit only when some group value meets the threshold). -/
def processData (threshold : ℚ) (si : Sidx) (d : AData)
    (row : MicroRow × Probe) : Option AData :=
  match calc_average row.1.2 with
  | none => none
  | some average =>
      match regionValues si row.1.2 with
      | none => none
      | some groups =>
          let g := row.2.gene_id
          if (List.lookup g d.probes).isSome then
            match List.lookup g d.averages with
            | none => none
            | some stored =>
                if stored < max stored average then
                  some (updateData d g row.2 (max stored average) groups)
                else some d
          else if groups.flatten.any (fun v => decide (threshold ≤ v)) then
            some (updateData d g row.2 average groups)
          else some d

/-- One iteration of the `zip(micro_csv, probes_csv)` loop: log a mismatch
of the leading identifiers (non-fatal), then update the dicts. -/
def processPair (threshold : ℚ) (si : Sidx) (st : AState)
    (row : MicroRow × Probe) : Option AState :=
  let st1 :=
    if row.1.1 ≠ row.2.probe_id then
      { st with log := st.log ++ [mismatchMsg] }
    else st
  (processData threshold si st1.data row).map (fun d => { st1 with data := d })

/-- Run the whole `zip` loop over the paired rows. -/
def runPairs (threshold : ℚ) (si : Sidx) :
    AState → List (MicroRow × Probe) → Option AState
  | st, [] => some st
  | st, row :: rest =>
      match processPair threshold si st row with
      | none => none
      | some st' => runPairs threshold si st' rest

/-- The `analyze_microarray` function of `main.py`.  `probeRows` is the
probe table with its header already skipped (`next(probes_csv)`); the two
streams are paired by `zip`, which truncates at the shorter one.  Returns
the `(probes, array)` pair of the source. -/
def analyze_microarray (micro : List MicroRow) (probeRows : List Probe)
    (si : Sidx) (threshold : ℚ) :
    Option (List (GeneId × Probe) × List (GeneId × List (List ℚ))) :=
  (runPairs threshold si initAState (micro.zip probeRows)).map
    (fun st => (st.data.probes, st.data.array))

/-! ## Structure classifier (`find_uniques_shared`) -/

/-- The `condition` list of `find_uniques_shared`: one boolean per structure
group, true when some value of the group meets or exceeds the threshold. -/
def geneCond (threshold : ℚ) (regions : List (List ℚ)) : List Bool :=
  regions.map (fun values => values.any (fun v => decide (threshold ≤ v)))

/-- Loop of `find_uniques_shared` over `array.items()` with the `unique`
and `shared` accumulators.  When no entry of `condition` is true,
`condition.index(True)` raises `ValueError` (`none`); when the index is
not a position of `structures`, `structures[index]` raises `IndexError`. -/
def fusGo (structures : List String) (threshold : ℚ) :
    List (String × List String) → List String →
      List (GeneId × List (List ℚ)) →
      Option (List (String × List String) × List String)
  | uni, shr, [] => some (uni, shr)
  | uni, shr, (gene, regions) :: rest =>
      if (geneCond threshold regions).all (fun b => b) then
        fusGo structures threshold uni (shr ++ [gene]) rest
      else
        match (geneCond threshold regions).findIdx? (fun b => b) with
        | none => none
        | some index =>
            match structures.get? index with
            | none => none
            | some s =>
                fusGo structures threshold (dictAppend uni s gene) shr rest

/-- The `find_uniques_shared` function of `main.py`: partition the genes of
`array` into per-structure unique lists and the shared list. -/
def find_uniques_shared (array : List (GeneId × List (List ℚ)))
    (structures : List String) (threshold : ℚ) :
    Option (List (String × List String) × List String) :=
  fusGo structures threshold (initDict structures ([] : List String)) [] array

/-! ## Association-list lemmas -/

theorem lookup_cons {α : Type} (k k' : String) (v : α) (l : List (String × α)) :
    List.lookup k ((k', v) :: l) = if k = k' then some v else List.lookup k l := by
  by_cases h : k = k'
  · have hb : (k == k') = true := by simp [h]
    simp [List.lookup, hb, h]
  · have hb : (k == k') = false := by simp [h]
    simp [List.lookup, hb, h]

theorem lookup_dictSet_self {α : Type} (l : List (String × α)) (k : String) (v : α) :
    List.lookup k (dictSet l k v) = some v := by
  induction l with
  | nil => simp [dictSet, lookup_cons]
  | cons p t ih =>
      obtain ⟨k', v'⟩ := p
      by_cases h : k' = k
      · subst h
        simp [dictSet, lookup_cons]
      · have h2 : ¬ k = k' := fun hh => h hh.symm
        simp [dictSet, h, lookup_cons, h2, ih]

theorem lookup_dictSet_ne {α : Type} (l : List (String × α)) (k k' : String) (v : α)
    (h : k' ≠ k) : List.lookup k' (dictSet l k v) = List.lookup k' l := by
  induction l with
  | nil => simp [dictSet, lookup_cons, h]
  | cons p t ih =>
      obtain ⟨k0, v0⟩ := p
      by_cases h0 : k0 = k
      · subst h0
        simp [dictSet, lookup_cons, h]
      · simp [dictSet, h0, lookup_cons, ih]

theorem map_fst_dictSet {α : Type} (l : List (String × α)) (k : String) (v : α) :
    (dictSet l k v).map Prod.fst =
      if (List.lookup k l).isSome then l.map Prod.fst else l.map Prod.fst ++ [k] := by
  induction l with
  | nil => simp [dictSet]
  | cons p t ih =>
      obtain ⟨k0, v0⟩ := p
      by_cases h0 : k0 = k
      · subst h0
        simp [dictSet, lookup_cons]
      · have h2 : ¬ k = k0 := fun hh => h0 hh.symm
        simp only [dictSet, if_neg h0, List.map_cons, lookup_cons, if_neg h2, ih]
        by_cases hs : (List.lookup k t).isSome <;> simp [hs]

theorem lookup_isSome_iff_mem {α : Type} (l : List (String × α)) (k : String) :
    (List.lookup k l).isSome = true ↔ k ∈ l.map Prod.fst := by
  induction l with
  | nil => simp [List.lookup]
  | cons p t ih =>
      obtain ⟨k0, v0⟩ := p
      by_cases h0 : k = k0
      · subst h0
        simp [lookup_cons]
      · simp [lookup_cons, h0, ih]

theorem lookup_isSome_congr {α β : Type} (l₁ : List (String × α)) (l₂ : List (String × β))
    (h : l₁.map Prod.fst = l₂.map Prod.fst) (k : String) :
    (List.lookup k l₁).isSome = (List.lookup k l₂).isSome := by
  by_cases hm : k ∈ l₁.map Prod.fst
  · have h1 := (lookup_isSome_iff_mem l₁ k).2 hm
    have h2 := (lookup_isSome_iff_mem l₂ k).2 (h ▸ hm)
    rw [h1, h2]
  · have h1 : ¬ (List.lookup k l₁).isSome = true := fun hc =>
      hm ((lookup_isSome_iff_mem l₁ k).1 hc)
    have h2 : ¬ (List.lookup k l₂).isSome = true := fun hc =>
      hm (h ▸ (lookup_isSome_iff_mem l₂ k).1 hc)
    simp only [Bool.not_eq_true] at h1 h2
    rw [h1, h2]

theorem lookup_dictAppend {α : Type} (l : List (String × List α)) (k s : String) (x : α) :
    List.lookup k (dictAppend l s x) =
      if k = s then (List.lookup k l).map (fun t => t ++ [x]) else List.lookup k l := by
  induction l with
  | nil => by_cases h : k = s <;> simp [dictAppend, List.lookup, h]
  | cons p t ih =>
      obtain ⟨k0, v0⟩ := p
      by_cases h0 : k0 = s
      · subst h0
        by_cases h1 : k = k0
        · subst h1
          simp [dictAppend, lookup_cons]
        · simp [dictAppend, lookup_cons, h1, ih]
      · by_cases h1 : k = k0
        · subst h1
          simp [dictAppend, lookup_cons, h0, if_neg h0]
        · simp [dictAppend, lookup_cons, h0, h1, ih]

theorem map_fst_dictAppend {α : Type} (l : List (String × List α)) (s : String) (x : α) :
    (dictAppend l s x).map Prod.fst = l.map Prod.fst := by
  induction l with
  | nil => simp [dictAppend]
  | cons p t ih =>
      obtain ⟨k0, v0⟩ := p
      by_cases h0 : k0 = s <;> simp_all [dictAppend]

/-! ## Sample-indexer lemmas -/

/-- Duplicate every recorded position of every structure in place. -/
def doubled : List (String × List Int) → List (String × List Int)
  | [] => []
  | (k, v) :: rest => (k, v.flatMap (fun x => [x, x])) :: doubled rest

theorem doubled_dictAppend (l : List (String × List Int)) (k : String) (x : Int) :
    doubled (dictAppend l k x) = dictAppend (dictAppend (doubled l) k x) k x := by
  induction l with
  | nil => simp [doubled, dictAppend]
  | cons p t ih =>
      obtain ⟨k0, v0⟩ := p
      by_cases h0 : k0 = k <;>
        simp [doubled, dictAppend, h0, ih, List.flatMap_append]

theorem map_fst_doubled (m : List (String × List Int)) :
    (doubled m).map Prod.fst = m.map Prod.fst := by
  induction m with
  | nil => simp [doubled]
  | cons p t ih =>
      obtain ⟨k0, v0⟩ := p
      simp [doubled, ih]

theorem gsi_keys (structures : List String) (dataRows : List (List String)) :
    ∀ (acc acc' : List (String × List Int)) (i : Int),
      gsiLoop structures acc i dataRows = some acc' →
        acc'.map Prod.fst = acc.map Prod.fst := by
  induction dataRows with
  | nil =>
      intro acc acc' i h
      simp [gsiLoop] at h
      rw [h]
  | cons line rest ih =>
      intro acc acc' i h
      rw [gsiLoop] at h
      cases hline : line.get? structureAcronymCol with
      | none => rw [hline] at h; exact absurd h (by simp)
      | some acr =>
          rw [hline] at h
          have := ih _ _ _ h
          rw [this]
          clear this h ih
          induction structures generalizing acc with
          | nil => simp
          | cons s t iht =>
              by_cases hs : s = acr <;>
                simp [hs, iht, map_fst_dictAppend]

theorem gsi_dup (s : String) (dataRows : List (List String)) :
    ∀ (acc : List (String × List Int)) (i : Int),
      gsiLoop [s, s] (doubled acc) i dataRows =
        (gsiLoop [s] acc i dataRows).map doubled := by
  induction dataRows with
  | nil => intro acc i; simp [gsiLoop]
  | cons line rest ih =>
      intro acc i
      rw [gsiLoop, gsiLoop]
      cases hline : line.get? structureAcronymCol with
      | none => simp
      | some acr =>
          by_cases hs : s = acr
          · simp only [List.foldl, if_pos hs, ← doubled_dictAppend]
            exact ih (dictAppend acc s (i - 1)) (i + 1)
          · simp only [List.foldl, if_neg hs]
            exact ih acc (i + 1)

theorem initDict_pair (s : String) {α : Type} (v : α) :
    initDict [s, s] v = [(s, v)] ∧ initDict [s] v = [(s, v)] := by
  constructor <;> simp [initDict, List.lookup]

/-! ## Claims about `calc_average` and `get_sample_index` -/

/-- Claim C8: for every expression-matrix row with at least one sample value
after the leading probe-identifier column, `calc_average` succeeds (the
divide-by-zero branch is unreachable) and returns the arithmetic mean of the
row's values: the result times the value count equals the value sum. -/
theorem claim_C8 (row : MicroRow) (h : row.2 ≠ []) :
    ∃ a, calc_average row.2 = some a ∧ a * (row.2.length : ℚ) = row.2.sum := by
  refine ⟨row.2.sum / (row.2.length : ℚ), ?_, ?_⟩
  · have he : row.2.isEmpty = false := by
      cases hr : row.2 with
      | nil => exact absurd hr h
      | cons x t => simp
    simp [calc_average, he]
  · have hlen : (row.2.length : ℚ) ≠ 0 := by
      have : row.2.length ≠ 0 := by
        cases hr : row.2 with
        | nil => exact absurd hr h
        | cons x t => simp
      exact_mod_cast this
    field_simp

theorem claim_C8_witness :
    ((("probe1", [(3 : ℚ), 5]) : MicroRow).2 ≠ []) ∧
      ∃ a, calc_average ((("probe1", [(3 : ℚ), 5]) : MicroRow)).2 = some a ∧
        a * (((("probe1", [(3 : ℚ), 5]) : MicroRow)).2.length : ℚ) =
          ((("probe1", [(3 : ℚ), 5]) : MicroRow)).2.sum :=
  ⟨by simp, claim_C8 ("probe1", [(3 : ℚ), 5]) (by simp)⟩

/-- Claim C2 (code bug): `get_sample_index` is claimed to record the 0-based
data-row positions (header excluded) of the matching rows, equal to the
expression matrix's sample-column offsets.  The source consumes the header
with `next(sample_csv)` and then *also* subtracts 1 from the `enumerate`
counter, so the recorded positions are off by one: the matching data rows
of this concrete table sit at data-row positions 0 and 1, but the function
records `[-1, 0]`. -/
theorem claim_C2 :
    get_sample_index
      [["structure_id", "slab_num", "well_id", "slab_type", "structure_acronym",
        "structure_name"],
       ["4001", "1", "w1", "CX", "PHA", "parahippocampal gyrus"],
       ["4002", "1", "w2", "CX", "PHA", "parahippocampal gyrus"]]
      ["PHA"]
      = some [("PHA", [-1, 0])] := by decide

/-- Claim C10: passing the same structure name twice yields a mapping with a
single key for that name, and each matching row's recorded position appears
twice in its list, once per occurrence of the name in the input list. -/
theorem claim_C10 (rows : List (List String)) (s : String)
    (m : List (String × List Int))
    (h : get_sample_index rows [s, s] = some m) :
    ∃ m₁, get_sample_index rows [s] = some m₁ ∧
      m.map Prod.fst = [s] ∧ m = doubled m₁ := by
  cases rows with
  | nil => exact absurd h (by simp [get_sample_index])
  | cons header dataRows =>
      have hinit := initDict_pair s ([] : List Int)
      rw [get_sample_index, hinit.1] at h
      have hdub : ([(s, ([] : List Int))]) = doubled [(s, ([] : List Int))] := by
        simp [doubled]
      rw [hdub, gsi_dup s dataRows [(s, [])] 0] at h
      cases h1 : gsiLoop [s] [(s, [])] 0 dataRows with
      | none => rw [h1] at h; exact absurd h (by simp)
      | some m₁ =>
          rw [h1] at h
          simp only [Option.map_some', Option.some.injEq] at h
          refine ⟨m₁, ?_, ?_, h.symm⟩
          · rw [get_sample_index, hinit.2, h1]
          · have hk := gsi_keys [s] dataRows [(s, [])] m₁ 0 h1
            rw [← h, map_fst_doubled, hk]
            rfl

/-! ## Aggregator step lemmas -/

theorem processData_eq (thr : ℚ) (si : Sidx) (d : AData) (micro : MicroRow)
    (probe : Probe) (avg : ℚ) (groups : List (List ℚ))
    (ha : calc_average micro.2 = some avg)
    (hg : regionValues si micro.2 = some groups) :
    processData thr si d (micro, probe) =
      if (List.lookup probe.gene_id d.probes).isSome then
        match List.lookup probe.gene_id d.averages with
        | none => none
        | some stored =>
            if stored < max stored avg then
              some (updateData d probe.gene_id probe (max stored avg) groups)
            else some d
      else if groups.flatten.any (fun v => decide (thr ≤ v)) then
        some (updateData d probe.gene_id probe avg groups)
      else some d := by
  show (match calc_average micro.2 with
    | none => none
    | some average =>
        match regionValues si micro.2 with
        | none => none
        | some groups' =>
            if (List.lookup probe.gene_id d.probes).isSome then
              match List.lookup probe.gene_id d.averages with
              | none => none
              | some stored =>
                  if stored < max stored average then
                    some (updateData d probe.gene_id probe (max stored average) groups')
                  else some d
            else if groups'.flatten.any (fun v => decide (thr ≤ v)) then
              some (updateData d probe.gene_id probe average groups')
            else some d) = _
  rw [ha, hg]

theorem processPair_data_eq (thr : ℚ) (si : Sidx) (st : AState)
    (row : MicroRow × Probe) :
    (processPair thr si st row).map AState.data = processData thr si st.data row := by
  have hdata :
      (if row.1.1 ≠ row.2.probe_id then
          { st with log := st.log ++ [mismatchMsg] }
        else st).data = st.data := by
    by_cases h : row.1.1 ≠ row.2.probe_id <;> simp [h]
  rw [processPair]
  rw [hdata]
  cases hpd : processData thr si st.data row <;> simp

theorem processPair_some (thr : ℚ) (si : Sidx) (st st₁ : AState)
    (row : MicroRow × Probe) (h : processPair thr si st row = some st₁) :
    processData thr si st.data row = some st₁.data := by
  have := processPair_data_eq thr si st row
  rw [h] at this
  simpa using this.symm

theorem runPairs_data_congr (thr : ℚ) (si : Sidx) (ps : List (MicroRow × Probe)) :
    ∀ st st' : AState, st.data = st'.data →
      (runPairs thr si st ps).map AState.data
        = (runPairs thr si st' ps).map AState.data := by
  induction ps with
  | nil => intro st st' hd; simpa [runPairs] using hd
  | cons row rest ih =>
      intro st st' hd
      have e1 := processPair_data_eq thr si st row
      have e2 := processPair_data_eq thr si st' row
      rw [hd] at e1
      rw [runPairs, runPairs]
      cases hp : processPair thr si st row with
      | none =>
          cases hp' : processPair thr si st' row with
          | none => simp
          | some s' =>
              rw [hp] at e1; rw [hp'] at e2
              rw [← e2] at e1
              simp at e1
      | some s =>
          cases hp' : processPair thr si st' row with
          | none =>
              rw [hp] at e1; rw [hp'] at e2
              rw [← e2] at e1
              simp at e1
          | some s' =>
              rw [hp] at e1; rw [hp'] at e2
              rw [← e2] at e1
              simp only [Option.map_some', Option.some.injEq] at e1
              exact ih s s' e1

/-! ## Claims about the aggregator's per-row behaviour -/

/-- Claim C4: for a row whose gene is already stored, the stored probe,
average and structure-value groups are replaced with this row's data if and
only if the row's average is strictly greater than the stored average; on a
tie (or lower average) the state is unchanged, keeping the earlier probe. -/
theorem claim_C4 (thr : ℚ) (si : Sidx) (st : AState) (micro : MicroRow)
    (probe : Probe) (avg stored : ℚ) (groups : List (List ℚ)) (q : Probe)
    (h0 : micro.1 = probe.probe_id)
    (ha : calc_average micro.2 = some avg)
    (hg : regionValues si micro.2 = some groups)
    (hp : List.lookup probe.gene_id st.data.probes = some q)
    (hs : List.lookup probe.gene_id st.data.averages = some stored) :
    processPair thr si st (micro, probe) =
      some (if stored < avg then
              { st with data := updateData st.data probe.gene_id probe avg groups }
            else st) := by
  have hmatch : ¬ ((micro, probe).1.1 ≠ (micro, probe).2.probe_id) := by
    simp [h0]
  rw [processPair, if_neg hmatch, processData_eq thr si st.data micro probe avg groups ha hg]
  rw [hs]
  simp only [hp, Option.isSome_some, if_true]
  by_cases hlt : stored < avg
  · rw [max_eq_right hlt.le]
    simp [hlt]
  · rw [max_eq_left (not_lt.mp hlt)]
    simp [hlt, lt_irrefl]

def probeOne : Probe :=
  ⟨"1058685", "A_23_P20713", "729", "C8G", "complement component 8 gamma",
    "733", "9"⟩

def probeTwo : Probe :=
  ⟨"1058684", "CUST_15185_PI416261223", "729", "C8G",
    "complement component 8 gamma", "733", "9"⟩

def siPHA : Sidx := [("PHA", [0])]

def stSeen : AState :=
  ⟨⟨[("729", probeOne)], [("729", 5)], [("729", [[5]])]⟩, []⟩

theorem claim_C4_witness :
    (("1058684", [(7 : ℚ)]) : MicroRow).1 = probeTwo.probe_id ∧
      calc_average ((("1058684", [(7 : ℚ)]) : MicroRow)).2 = some 7 ∧
      regionValues siPHA ((("1058684", [(7 : ℚ)]) : MicroRow)).2 = some [[7]] ∧
      List.lookup probeTwo.gene_id stSeen.data.probes = some probeOne ∧
      List.lookup probeTwo.gene_id stSeen.data.averages = some 5 ∧
      processPair 5 siPHA stSeen (("1058684", [(7 : ℚ)]), probeTwo) =
        some (if (5 : ℚ) < 7 then
                { stSeen with
                    data := updateData stSeen.data probeTwo.gene_id probeTwo 7 [[7]] }
              else stSeen) :=
  ⟨rfl, by norm_num [calc_average], by decide, by decide, by decide,
    claim_C4 5 siPHA stSeen ("1058684", [(7 : ℚ)]) probeTwo 7 5 [[7]] probeOne
      rfl (by norm_num [calc_average]) (by decide) (by decide) (by decide)⟩

/-- Claim C6: a row whose gene is not yet stored is admitted if and only if
some value among its structure-value groups meets or exceeds the threshold
(the result state contains the gene exactly when the check passes), whereas
a row whose gene is already stored is processed identically for every
threshold: only the average comparison decides replacement. -/
theorem claim_C6 (thr : ℚ) (si : Sidx) (st : AState) (micro : MicroRow)
    (probe : Probe) (avg : ℚ) (groups : List (List ℚ))
    (h0 : micro.1 = probe.probe_id)
    (ha : calc_average micro.2 = some avg)
    (hg : regionValues si micro.2 = some groups) :
    (List.lookup probe.gene_id st.data.probes = none →
      processPair thr si st (micro, probe) =
        some (if groups.flatten.any (fun v => decide (thr ≤ v)) then
                { st with data := updateData st.data probe.gene_id probe avg groups }
              else st) ∧
      (processPair thr si st (micro, probe)).map
          (fun s => (List.lookup probe.gene_id s.data.probes).isSome)
        = some (groups.flatten.any (fun v => decide (thr ≤ v)))) ∧
    ((List.lookup probe.gene_id st.data.probes).isSome →
      ∀ thr' : ℚ, processPair thr si st (micro, probe)
        = processPair thr' si st (micro, probe)) := by
  have hmatch : ¬ ((micro, probe).1.1 ≠ (micro, probe).2.probe_id) := by
    simp [h0]
  constructor
  · intro hnone
    have heq : processPair thr si st (micro, probe) =
        some (if groups.flatten.any (fun v => decide (thr ≤ v)) then
                { st with data := updateData st.data probe.gene_id probe avg groups }
              else st) := by
      rw [processPair, if_neg hmatch,
        processData_eq thr si st.data micro probe avg groups ha hg]
      simp only [hnone, Option.isSome_none, Bool.false_eq_true, if_false]
      by_cases hpass : groups.flatten.any (fun v => decide (thr ≤ v)) <;>
        simp [hpass]
    refine ⟨heq, ?_⟩
    rw [heq]
    by_cases hpass : groups.flatten.any (fun v => decide (thr ≤ v))
    · simp only [hpass, if_true, Option.map_some', Option.some.injEq]
      simp [updateData, lookup_dictSet_self]
    · simp only [hpass]
      simp [hnone, hpass]
  · intro hseen thr'
    rw [processPair, processPair, if_neg hmatch,
      processData_eq thr si st.data micro probe avg groups ha hg,
      processData_eq thr' si st.data micro probe avg groups ha hg]
    simp only [hseen, if_true]

theorem claim_C6_witness :
    (("1058685", [(7 : ℚ)]) : MicroRow).1 = probeOne.probe_id ∧
      calc_average ((("1058685", [(7 : ℚ)]) : MicroRow)).2 = some 7 ∧
      regionValues siPHA ((("1058685", [(7 : ℚ)]) : MicroRow)).2 = some [[7]] ∧
      ((List.lookup probeOne.gene_id initAState.data.probes = none →
        processPair 5 siPHA initAState (("1058685", [(7 : ℚ)]), probeOne) =
          some (if ([[(7 : ℚ)]]).flatten.any (fun v => decide ((5 : ℚ) ≤ v)) then
                  { initAState with
                      data := updateData initAState.data probeOne.gene_id probeOne 7 [[7]] }
                else initAState) ∧
        (processPair 5 siPHA initAState (("1058685", [(7 : ℚ)]), probeOne)).map
            (fun s => (List.lookup probeOne.gene_id s.data.probes).isSome)
          = some (([[(7 : ℚ)]]).flatten.any (fun v => decide ((5 : ℚ) ≤ v)))) ∧
      ((List.lookup probeOne.gene_id initAState.data.probes).isSome →
        ∀ thr' : ℚ, processPair 5 siPHA initAState (("1058685", [(7 : ℚ)]), probeOne)
          = processPair thr' siPHA initAState (("1058685", [(7 : ℚ)]), probeOne))) :=
  ⟨rfl, by norm_num [calc_average], by decide,
    claim_C6 5 siPHA initAState ("1058685", [(7 : ℚ)]) probeOne 7 [[7]]
      rfl (by norm_num [calc_average]) (by decide)⟩

/-- Claim C7: on a leading-identifier mismatch the step appends exactly the
warning line to the log and otherwise behaves as if the identifiers matched
(processing the row with the values present), and the whole remaining run's
data result is unchanged: the mismatch never aborts the run. -/
theorem claim_C7 (thr : ℚ) (si : Sidx) (st : AState) (micro : MicroRow)
    (probe : Probe) (h : micro.1 ≠ probe.probe_id) :
    processPair thr si st (micro, probe)
      = (processPair thr si st ((probe.probe_id, micro.2), probe)).map
          (fun s => { s with log := s.log ++ [mismatchMsg] }) ∧
    ∀ rest : List (MicroRow × Probe),
      (runPairs thr si st ((micro, probe) :: rest)).map AState.data
        = (runPairs thr si st (((probe.probe_id, micro.2), probe) :: rest)).map
            AState.data := by
  have hpd : processData thr si st.data ((probe.probe_id, micro.2), probe)
      = processData thr si st.data (micro, probe) := rfl
  have hmain : processPair thr si st (micro, probe)
      = (processPair thr si st ((probe.probe_id, micro.2), probe)).map
          (fun s => { s with log := s.log ++ [mismatchMsg] }) := by
    rw [processPair, processPair]
    simp only [ne_eq, h, not_false_eq_true, if_true, ite_not, ite_self,
      if_neg (show ¬ ((probe.probe_id, micro.2), probe).1.1
          ≠ ((probe.probe_id, micro.2), probe).2.probe_id by simp)]
    rw [hpd]
    cases hc : processData thr si st.data (micro, probe) <;> simp
  refine ⟨hmain, ?_⟩
  intro rest
  rw [runPairs, runPairs]
  cases hc : processPair thr si st ((probe.probe_id, micro.2), probe) with
  | none =>
      rw [hmain, hc]
      simp
  | some s =>
      rw [hmain, hc]
      simp only [Option.map_some']
      exact runPairs_data_congr thr si rest _ s rfl

theorem claim_C7_witness :
    ((("9999", [(7 : ℚ)]) : MicroRow).1 ≠ probeOne.probe_id) ∧
      (processPair 5 siPHA initAState (("9999", [(7 : ℚ)]), probeOne)
        = (processPair 5 siPHA initAState
              ((probeOne.probe_id, ((("9999", [(7 : ℚ)]) : MicroRow)).2), probeOne)).map
            (fun s => { s with log := s.log ++ [mismatchMsg] }) ∧
      ∀ rest : List (MicroRow × Probe),
        (runPairs 5 siPHA initAState ((("9999", [(7 : ℚ)]), probeOne) :: rest)).map
            AState.data
          = (runPairs 5 siPHA initAState
                (((probeOne.probe_id, ((("9999", [(7 : ℚ)]) : MicroRow)).2), probeOne)
                  :: rest)).map AState.data) :=
  ⟨by decide, claim_C7 5 siPHA initAState ("9999", [(7 : ℚ)]) probeOne (by decide)⟩

/-! ## Key-set invariant of the aggregator -/

/-- All three per-gene dicts of the aggregator share one key list. -/
def keysOk (d : AData) : Prop :=
  d.probes.map Prod.fst = d.averages.map Prod.fst ∧
    d.probes.map Prod.fst = d.array.map Prod.fst

theorem keysOk_updateData (d : AData) (g : GeneId) (probe : Probe) (a : ℚ)
    (groups : List (List ℚ)) (hk : keysOk d) : keysOk (updateData d g probe a groups) := by
  obtain ⟨h1, h2⟩ := hk
  have h3 : d.averages.map Prod.fst = d.array.map Prod.fst := h1.symm.trans h2
  have e1 := lookup_isSome_congr d.probes d.averages h1 g
  have e2 := lookup_isSome_congr d.probes d.array h2 g
  constructor <;>
    simp only [updateData, map_fst_dictSet, ← e1, ← e2] <;>
    by_cases hs : (List.lookup g d.probes).isSome <;>
    simp [hs, h1, h2, h3]

theorem keysOk_processData (thr : ℚ) (si : Sidx) (d d' : AData)
    (row : MicroRow × Probe) (h : processData thr si d row = some d')
    (hk : keysOk d) : keysOk d' := by
  cases ha : calc_average row.1.2 with
  | none =>
      rw [processData, ha] at h
      exact absurd h (by simp)
  | some avg =>
      cases hg : regionValues si row.1.2 with
      | none =>
          rw [processData, ha, hg] at h
          exact absurd h (by simp)
      | some groups =>
          obtain ⟨micro, probe⟩ := row
          rw [processData_eq thr si d micro probe avg groups ha hg] at h
          by_cases hseen : (List.lookup probe.gene_id d.probes).isSome
          · rw [if_pos hseen] at h
            cases hs : List.lookup probe.gene_id d.averages with
            | none => rw [hs] at h; exact absurd h (by simp)
            | some stored =>
                rw [hs] at h
                by_cases hlt : stored < max stored avg
                · simp only [hlt, if_true, Option.some.injEq] at h
                  rw [← h]
                  exact keysOk_updateData d probe.gene_id probe (max stored avg) groups hk
                · simp only [hlt, if_false, Option.some.injEq] at h
                  rw [← h]
                  exact hk
          · rw [if_neg hseen] at h
            by_cases hpass : groups.flatten.any (fun v => decide (thr ≤ v))
            · rw [if_pos hpass] at h
              cases h
              exact keysOk_updateData d probe.gene_id probe avg groups hk
            · rw [if_neg hpass] at h
              cases h
              exact hk

theorem runPairs_keysOk (thr : ℚ) (si : Sidx) (ps : List (MicroRow × Probe)) :
    ∀ st st' : AState, runPairs thr si st ps = some st' →
      keysOk st.data → keysOk st'.data := by
  induction ps with
  | nil =>
      intro st st' h hk
      rw [runPairs] at h
      cases h
      exact hk
  | cons row rest ih =>
      intro st st' h hk
      rw [runPairs] at h
      cases hp : processPair thr si st row with
      | none => rw [hp] at h; exact absurd h (by simp)
      | some st₁ =>
          rw [hp] at h
          have hd := processPair_some thr si st st₁ row hp
          exact ih st₁ st' h (keysOk_processData thr si st.data st₁.data row hd hk)

/-- Claim C9: the two mappings returned by `analyze_microarray` always have
exactly the same key list: admissions insert into both dicts and
replacements update both, so no gene is in one without the other, and the
report formatter's probe lookup cannot miss for a classified gene. -/
theorem claim_C9 (micro : List MicroRow) (probeRows : List Probe) (si : Sidx)
    (thr : ℚ) (r : List (GeneId × Probe) × List (GeneId × List (List ℚ)))
    (h : analyze_microarray micro probeRows si thr = some r) :
    r.1.map Prod.fst = r.2.map Prod.fst := by
  rw [analyze_microarray] at h
  cases hr : runPairs thr si initAState (micro.zip probeRows) with
  | none => rw [hr] at h; exact absurd h (by simp)
  | some st =>
      rw [hr] at h
      simp only [Option.map_some', Option.some.injEq] at h
      have hk := runPairs_keysOk thr si (micro.zip probeRows) initAState st hr
        (by constructor <;> rfl)
      rw [← h]
      exact hk.2

theorem claim_C9_witness :
    (analyze_microarray [("1058685", [(7 : ℚ)])] [probeOne] siPHA 5
      = some ([("729", probeOne)], [("729", [[(7 : ℚ)]])])) ∧
    (([("729", probeOne)], [("729", [[(7 : ℚ)]])]).1.map Prod.fst
      = ([("729", probeOne)], [("729", [[(7 : ℚ)]])]).2.map Prod.fst) := by
  have hrun : analyze_microarray [("1058685", [(7 : ℚ)])] [probeOne] siPHA 5
      = some ([("729", probeOne)], [("729", [[(7 : ℚ)]])]) := by
    have ha : calc_average [(7 : ℚ)] = some 7 := by norm_num [calc_average]
    have hg : regionValues siPHA [(7 : ℚ)] = some [[7]] := by decide
    norm_num [analyze_microarray, runPairs, processPair, processData, ha, hg,
      updateData, initAState, probeOne, dictSet, List.lookup]
  exact ⟨hrun, claim_C9 [("1058685", [(7 : ℚ)])] [probeOne] siPHA 5
    ([("729", probeOne)], [("729", [[(7 : ℚ)]])]) hrun⟩

theorem claim_C10_witness :
    (get_sample_index
        [["structure_id", "slab_num", "well_id", "slab_type", "structure_acronym",
          "structure_name"],
         ["4001", "1", "w1", "CX", "PHA", "parahippocampal gyrus"]]
        ["PHA", "PHA"]
        = some [("PHA", [-1, -1])]) ∧
      ∃ m₁, get_sample_index
          [["structure_id", "slab_num", "well_id", "slab_type", "structure_acronym",
            "structure_name"],
           ["4001", "1", "w1", "CX", "PHA", "parahippocampal gyrus"]]
          ["PHA"] = some m₁ ∧
        ([("PHA", [(-1 : Int), -1])]).map Prod.fst = ["PHA"] ∧
          ([("PHA", [(-1 : Int), -1])]) = doubled m₁ :=
  ⟨by decide, claim_C10 _ "PHA" _ (by decide)⟩

/-! ## Claims about the structure classifier -/

theorem geneCond_all_false (thr : ℚ) (regions : List (List ℚ))
    (hfail : ∀ grp ∈ regions, ∀ v ∈ grp, v < thr) :
    ∀ b ∈ geneCond thr regions, b = false := by
  intro b hb
  rw [geneCond, List.mem_map] at hb
  obtain ⟨grp, hgrp, hbeq⟩ := hb
  rw [← hbeq]
  rw [List.any_eq_false]
  intro v hv
  simp only [decide_eq_true_eq]
  exact not_le.mpr (hfail grp hgrp v hv)

theorem fusGo_none (structures : List String) (thr : ℚ) (g : GeneId)
    (regions : List (List ℚ)) (hne : regions ≠ [])
    (hfail : ∀ grp ∈ regions, ∀ v ∈ grp, v < thr)
    (arr : List (GeneId × List (List ℚ))) :
    ∀ (uni : List (String × List String)) (shr : List String),
      (g, regions) ∈ arr → fusGo structures thr uni shr arr = none := by
  induction arr with
  | nil => intro uni shr h; exact absurd h (by simp)
  | cons p rest ih =>
      intro uni shr hmem
      obtain ⟨g0, r0⟩ := p
      rcases List.mem_cons.mp hmem with heq | hrest
      · cases heq
        have hfalse := geneCond_all_false thr regions hfail
        have hall : ¬ (geneCond thr regions).all (fun b => b) = true := by
          rw [List.all_eq_true]
          intro hc
          cases hcond : geneCond thr regions with
          | nil =>
              have hlen : regions = [] := by
                have := congrArg List.length hcond
                simpa [geneCond] using this
              exact hne hlen
          | cons b t =>
              have hb := hfalse b (by rw [hcond]; exact List.mem_cons_self b t)
              have hb2 := hc b (by rw [hcond]; exact List.mem_cons_self b t)
              rw [hb] at hb2
              exact Bool.false_ne_true hb2
        have hidx : (geneCond thr regions).findIdx? (fun b => b) = none := by
          rw [List.findIdx?_eq_none_iff]
          exact hfalse
        rw [fusGo, if_neg hall, hidx]
      · rw [fusGo]
        by_cases hall : (geneCond thr r0).all (fun b => b)
        · rw [if_pos hall]
          exact ih uni (shr ++ [g0]) hrest
        · rw [if_neg hall]
          cases hidx : (geneCond thr r0).findIdx? (fun b => b) with
          | none => rfl
          | some index =>
              show (match structures.get? index with
                | none => none
                | some s =>
                    fusGo structures thr (dictAppend uni s g0) shr rest) = none
              cases structures.get? index with
              | none => rfl
              | some s => exact ih (dictAppend uni s g0) shr hrest

theorem lookup_append {α : Type} (l₁ l₂ : List (String × α)) (k : String) :
    List.lookup k (l₁ ++ l₂) =
      match List.lookup k l₁ with
      | some v => some v
      | none => List.lookup k l₂ := by
  induction l₁ with
  | nil => simp [List.lookup]
  | cons p t ih =>
      obtain ⟨k0, v0⟩ := p
      by_cases h0 : k = k0 <;> simp [lookup_cons, h0, ih]

theorem lookup_mem {α : Type} (l : List (String × α)) (k : String) (x : α)
    (h : List.lookup k l = some x) : (k, x) ∈ l := by
  induction l with
  | nil => exact absurd h (by simp [List.lookup])
  | cons p t ih =>
      obtain ⟨k0, v0⟩ := p
      rw [lookup_cons] at h
      by_cases h0 : k = k0
      · rw [if_pos h0] at h
        cases h
        rw [h0]
        exact List.mem_cons_self _ _
      · rw [if_neg h0] at h
        exact List.mem_cons_of_mem _ (ih h)

theorem initDict_values {α : Type} (structures : List String) (v : α) :
    ∀ p ∈ initDict structures v, p.2 = v := by
  rw [initDict]
  have hgen : ∀ (l : List String) (acc : List (String × α)),
      (∀ p ∈ acc, p.2 = v) →
      ∀ p ∈ l.foldl
          (fun acc s => if (List.lookup s acc).isSome then acc else acc ++ [(s, v)])
          acc, p.2 = v := by
    intro l
    induction l with
    | nil => intro acc hacc p hp; exact hacc p hp
    | cons s t ih =>
        intro acc hacc p hp
        refine ih _ ?_ p hp
        by_cases hs : (List.lookup s acc).isSome
        · simpa [hs] using hacc
        · simp only [hs, if_false]
          intro q hq
          rcases List.mem_append.mp hq with hq1 | hq2
          · exact hacc q hq1
          · simp at hq2
            rw [hq2]
  exact hgen structures [] (by simp)

theorem initDict_isSome {α : Type} (structures : List String) (v : α) (s : String)
    (hs : s ∈ structures) : (List.lookup s (initDict structures v)).isSome = true := by
  rw [initDict]
  have hgen : ∀ (l : List String) (acc : List (String × α)),
      ((List.lookup s acc).isSome = true ∨ s ∈ l) →
      (List.lookup s (l.foldl
          (fun acc s => if (List.lookup s acc).isSome then acc else acc ++ [(s, v)])
          acc)).isSome = true := by
    intro l
    induction l with
    | nil =>
        intro acc h
        rcases h with h | h
        · exact h
        · exact absurd h (by simp)
    | cons s0 t ih =>
        intro acc h
        refine ih _ ?_
        show (List.lookup s
            (if (List.lookup s0 acc).isSome = true then acc else acc ++ [(s0, v)])).isSome
              = true ∨ s ∈ t
        by_cases hsk : (List.lookup s0 acc).isSome
        · rw [if_pos hsk]
          rcases h with h | h
          · exact Or.inl h
          · rcases List.mem_cons.mp h with h1 | h2
            · subst h1
              exact Or.inl hsk
            · exact Or.inr h2
        · rw [if_neg hsk]
          rcases h with h | h
          · refine Or.inl ?_
            rw [lookup_append]
            cases hc : List.lookup s acc with
            | none => rw [hc] at h; exact absurd h (by simp)
            | some w => simp
          · rcases List.mem_cons.mp h with h1 | h2
            · subst h1
              refine Or.inl ?_
              rw [lookup_append]
              cases hc : List.lookup s acc with
              | none => simp [lookup_cons]
              | some w => simp
            · exact Or.inr h2
  exact hgen structures [] (Or.inr hs)

theorem fusGo_inv (structures : List String) (thr : ℚ)
    (arr : List (GeneId × List (List ℚ))) :
    ∀ (uni : List (String × List String)) (shr : List String)
      (uni' : List (String × List String)) (shr' : List String),
      fusGo structures thr uni shr arr = some (uni', shr') →
        uni'.map Prod.fst = uni.map Prod.fst ∧
        (∀ x ∈ shr, x ∈ shr') ∧
        (∀ x ∈ shr', x ∈ shr ∨ x ∈ arr.map Prod.fst) ∧
        (∀ k lst, List.lookup k uni = some lst →
          ∃ lst', List.lookup k uni' = some lst' ∧ ∀ x ∈ lst, x ∈ lst') ∧
        (∀ k lst', List.lookup k uni' = some lst' → ∀ x ∈ lst',
          (∃ lst, List.lookup k uni = some lst ∧ x ∈ lst) ∨ x ∈ arr.map Prod.fst) := by
  induction arr with
  | nil =>
      intro uni shr uni' shr' h
      rw [fusGo] at h
      injection h with h
      injection h with h1 h2
      subst h1; subst h2
      exact ⟨rfl, fun x hx => hx, fun x hx => Or.inl hx,
        fun k lst hl => ⟨lst, hl, fun x hx => hx⟩,
        fun k lst' hl x hx => Or.inl ⟨lst', hl, hx⟩⟩
  | cons p rest ih =>
      intro uni shr uni' shr' h
      obtain ⟨g0, r0⟩ := p
      rw [fusGo] at h
      by_cases hall : (geneCond thr r0).all (fun b => b)
      · rw [if_pos hall] at h
        obtain ⟨hk, hm, hsrc, hum, husrc⟩ := ih uni (shr ++ [g0]) uni' shr' h
        refine ⟨hk, ?_, ?_, hum, ?_⟩
        · intro x hx
          exact hm x (List.mem_append_left _ hx)
        · intro x hx
          rcases hsrc x hx with h1 | h2
          · rcases List.mem_append.mp h1 with h3 | h4
            · exact Or.inl h3
            · simp at h4
              subst h4
              exact Or.inr (by simp)
          · exact Or.inr (List.mem_cons_of_mem _ h2)
        · intro k lst' hl x hx
          rcases husrc k lst' hl x hx with h1 | h2
          · exact Or.inl h1
          · exact Or.inr (List.mem_cons_of_mem _ h2)
      · rw [if_neg hall] at h
        cases hidx : (geneCond thr r0).findIdx? (fun b => b) with
        | none =>
            rw [hidx] at h
            exact absurd h (by simp)
        | some index =>
            rw [hidx] at h
            simp only at h
            cases hget : structures.get? index with
            | none =>
                rw [hget] at h
                exact absurd h (by simp)
            | some s =>
                rw [hget] at h
                simp only at h
                obtain ⟨hk, hm, hsrc, hum, husrc⟩ :=
                  ih (dictAppend uni s g0) shr uni' shr' h
                refine ⟨?_, hm, ?_, ?_, ?_⟩
                · rw [hk, map_fst_dictAppend]
                · intro x hx
                  rcases hsrc x hx with h1 | h2
                  · exact Or.inl h1
                  · exact Or.inr (List.mem_cons_of_mem _ h2)
                · intro k lst hl
                  by_cases hks : k = s
                  · subst hks
                    obtain ⟨lst', hl', hsub⟩ := hum k (lst ++ [g0])
                      (by rw [lookup_dictAppend, if_pos rfl, hl]; rfl)
                    exact ⟨lst', hl', fun x hx =>
                      hsub x (List.mem_append_left _ hx)⟩
                  · exact hum k lst
                      (by rw [lookup_dictAppend, if_neg hks]; exact hl)
                · intro k lst' hl x hx
                  rcases husrc k lst' hl x hx with h1 | h2
                  · obtain ⟨lst1, hl1, hx1⟩ := h1
                    by_cases hks : k = s
                    · subst hks
                      rw [lookup_dictAppend, if_pos rfl] at hl1
                      cases hc : List.lookup k uni with
                      | none => rw [hc] at hl1; exact absurd hl1 (by simp)
                      | some lst0 =>
                          rw [hc] at hl1
                          simp only [Option.map_some', Option.some.injEq] at hl1
                          rw [← hl1] at hx1
                          rcases List.mem_append.mp hx1 with h3 | h4
                          · exact Or.inl ⟨lst0, rfl, h3⟩
                          · simp at h4
                            subst h4
                            exact Or.inr (by simp)
                    · rw [lookup_dictAppend, if_neg hks] at hl1
                      exact Or.inl ⟨lst1, hl1, hx1⟩
                  · exact Or.inr (List.mem_cons_of_mem _ h2)

theorem fusGo_gene (structures : List String) (thr : ℚ) (g : GeneId)
    (regions : List (List ℚ)) (arr : List (GeneId × List (List ℚ))) :
    ∀ (uni : List (String × List String)) (shr : List String)
      (uni' : List (String × List String)) (shr' : List String),
      fusGo structures thr uni shr arr = some (uni', shr') →
      (g, regions) ∈ arr →
      (arr.map Prod.fst).Nodup →
      g ∉ shr →
      (∀ k lst, List.lookup k uni = some lst → g ∉ lst) →
      (∀ s ∈ structures, (List.lookup s uni).isSome = true) →
      ((g ∈ shr' ↔ (geneCond thr regions).all (fun b => b) = true) ∧
       ∀ i s, (geneCond thr regions).findIdx? (fun b => b) = some i →
         structures.get? i = some s →
         ¬ (geneCond thr regions).all (fun b => b) = true →
         (∃ lst, List.lookup s uni' = some lst ∧ g ∈ lst) ∧
         (∀ s' lst', s' ≠ s → List.lookup s' uni' = some lst' → g ∉ lst')) := by
  induction arr with
  | nil => intro uni shr uni' shr' h hmem; exact absurd hmem (by simp)
  | cons p rest ih =>
      intro uni shr uni' shr' h hmem hnd hshr hclean hkeys
      obtain ⟨g0, r0⟩ := p
      have hnd2 : (rest.map Prod.fst).Nodup := (List.nodup_cons.mp hnd).2
      have hg0nr : g0 ∉ rest.map Prod.fst := (List.nodup_cons.mp hnd).1
      rw [fusGo] at h
      rcases List.mem_cons.mp hmem with heq | hrest
      · cases heq
        by_cases hall : (geneCond thr regions).all (fun b => b)
        · rw [if_pos hall] at h
          obtain ⟨hk, hm, hsrc, hum, husrc⟩ := fusGo_inv structures thr rest
            uni (shr ++ [g]) uni' shr' h
          constructor
          · simp only [hall, iff_true]
            exact hm g (by simp)
          · intro i s _ _ hnall
            exact absurd hall hnall
        · rw [if_neg hall] at h
          cases hidx0 : (geneCond thr regions).findIdx? (fun b => b) with
          | none => rw [hidx0] at h; exact absurd h (by simp)
          | some i0 =>
              rw [hidx0] at h
              simp only at h
              cases hget0 : structures.get? i0 with
              | none => rw [hget0] at h; exact absurd h (by simp)
              | some s0 =>
                  rw [hget0] at h
                  simp only at h
                  obtain ⟨hk, hm, hsrc, hum, husrc⟩ := fusGo_inv structures thr rest
                    (dictAppend uni s0 g) shr uni' shr' h
                  have hgnr : g ∉ rest.map Prod.fst := hg0nr
                  constructor
                  · constructor
                    · intro hg
                      exfalso
                      rcases hsrc g hg with h1 | h2
                      · exact hshr h1
                      · exact hgnr h2
                    · intro hc
                      exact absurd hc hall
                  · intro i s hidx hget hnall
                    injection hidx with hi
                    subst hi
                    rw [hget0] at hget
                    injection hget with hs
                    subst hs
                    have hs0mem : s0 ∈ structures := List.get?_mem hget0
                    have hs0is := hkeys s0 hs0mem
                    cases hc : List.lookup s0 uni with
                    | none => rw [hc] at hs0is; exact absurd hs0is (by simp)
                    | some lst0 =>
                        constructor
                        · obtain ⟨lst', hl', hsub⟩ := hum s0 (lst0 ++ [g])
                            (by rw [lookup_dictAppend, if_pos rfl, hc]; rfl)
                          exact ⟨lst', hl', hsub g (by simp)⟩
                        · intro s' lst' hne hl' hg
                          rcases husrc s' lst' hl' g hg with h1 | h2
                          · obtain ⟨lst1, hl1, hg1⟩ := h1
                            rw [lookup_dictAppend, if_neg hne] at hl1
                            exact hclean s' lst1 hl1 hg1
                          · exact hgnr h2
      · have hgr : g ∈ rest.map Prod.fst :=
          List.mem_map.mpr ⟨(g, regions), hrest, rfl⟩
        have hgne : g ≠ g0 := fun hgg => hg0nr (hgg ▸ hgr)
        by_cases hall : (geneCond thr r0).all (fun b => b)
        · rw [if_pos hall] at h
          refine ih uni (shr ++ [g0]) uni' shr' h hrest hnd2 ?_ hclean hkeys
          intro hg
          rcases List.mem_append.mp hg with h1 | h2
          · exact hshr h1
          · simp at h2
            exact hgne h2
        · rw [if_neg hall] at h
          cases hidx0 : (geneCond thr r0).findIdx? (fun b => b) with
          | none => rw [hidx0] at h; exact absurd h (by simp)
          | some i0 =>
              rw [hidx0] at h
              simp only at h
              cases hget0 : structures.get? i0 with
              | none => rw [hget0] at h; exact absurd h (by simp)
              | some s0 =>
                  rw [hget0] at h
                  simp only at h
                  refine ih (dictAppend uni s0 g0) shr uni' shr' h hrest hnd2
                    hshr ?_ ?_
                  · intro k lst hl
                    rw [lookup_dictAppend] at hl
                    by_cases hks : k = s0
                    · rw [if_pos hks] at hl
                      cases hc : List.lookup k uni with
                      | none => rw [hc] at hl; exact absurd hl (by simp)
                      | some lst1 =>
                          rw [hc] at hl
                          simp only [Option.map_some', Option.some.injEq] at hl
                          rw [← hl]
                          intro hg
                          rcases List.mem_append.mp hg with h1 | h2
                          · exact hclean k lst1 hc h1
                          · simp at h2
                            exact hgne h2
                    · rw [if_neg hks] at hl
                      exact hclean k lst hl
                  · intro s hsmem
                    rw [lookup_dictAppend]
                    by_cases hks : s = s0
                    · rw [if_pos hks]
                      cases hc : List.lookup s uni with
                      | none =>
                          have := hkeys s hsmem
                          rw [hc] at this
                          exact absurd this (by simp)
                      | some lst1 => simp
                    · rw [if_neg hks]
                      exact hkeys s hsmem

theorem geneCond_all_iff (thr : ℚ) (regions : List (List ℚ)) :
    (geneCond thr regions).all (fun b => b) = true ↔
      ∀ grp ∈ regions, ∃ v ∈ grp, thr ≤ v := by
  rw [geneCond]
  simp [List.all_eq_true, List.any_eq_true]

theorem geneCond_any_iff (thr : ℚ) (regions : List (List ℚ)) :
    (geneCond thr regions).any (fun b => b) = true ↔
      ∃ grp ∈ regions, ∃ v ∈ grp, thr ≤ v := by
  rw [geneCond]
  simp [List.any_eq_true]

/-- Claim C5: for every gene of the classifier's input (when classification
succeeds, keys are distinct and the gene's groups align with the structure
list), the gene is in `shared` iff every structure group has a value meeting
the threshold; and when some but not all groups do, the gene sits in exactly
one unique list, namely that of the structure at the first passing group's
index in configured order. -/
theorem claim_C5 (arr : List (GeneId × List (List ℚ))) (structures : List String)
    (thr : ℚ) (g : GeneId) (regions : List (List ℚ))
    (uni : List (String × List String)) (shr : List String)
    (h : find_uniques_shared arr structures thr = some (uni, shr))
    (hmem : (g, regions) ∈ arr)
    (hnd : (arr.map Prod.fst).Nodup)
    (hlen : regions.length = structures.length) :
    (g ∈ shr ↔ ∀ grp ∈ regions, ∃ v ∈ grp, thr ≤ v) ∧
    ((∃ grp ∈ regions, ∃ v ∈ grp, thr ≤ v) ∧
        ¬(∀ grp ∈ regions, ∃ v ∈ grp, thr ≤ v) →
      g ∉ shr ∧
      ∃ i s, (geneCond thr regions).findIdx? (fun b => b) = some i ∧
        structures.get? i = some s ∧
        (∃ lst, List.lookup s uni = some lst ∧ g ∈ lst) ∧
        (∀ s' lst', s' ≠ s → List.lookup s' uni = some lst' → g ∉ lst')) := by
  rw [find_uniques_shared] at h
  have hclean : ∀ k lst,
      List.lookup k (initDict structures ([] : List String)) = some lst →
        g ∉ lst := by
    intro k lst hl
    have hv := initDict_values structures ([] : List String) (k, lst)
      (lookup_mem _ _ _ hl)
    simp only at hv
    rw [hv]
    simp
  have hkeys : ∀ s ∈ structures,
      (List.lookup s (initDict structures ([] : List String))).isSome = true :=
    fun s hs => initDict_isSome structures [] s hs
  have hg := fusGo_gene structures thr g regions arr
    (initDict structures []) [] uni shr h hmem hnd (by simp) hclean hkeys
  constructor
  · rw [hg.1, geneCond_all_iff]
  · rintro ⟨hex, hnallP⟩
    have hnall : ¬ (geneCond thr regions).all (fun b => b) = true := by
      rw [geneCond_all_iff]
      exact hnallP
    have hgs : g ∉ shr := by
      rw [hg.1]
      exact hnall
    refine ⟨hgs, ?_⟩
    have hisSome : ((geneCond thr regions).findIdx? (fun b => b)).isSome = true := by
      rw [List.findIdx?_isSome, geneCond_any_iff]
      exact hex
    cases hidx : (geneCond thr regions).findIdx? (fun b => b) with
    | none => rw [hidx] at hisSome; exact absurd hisSome (by simp)
    | some i =>
        have hi : i < structures.length := by
          obtain ⟨hlt, -⟩ := List.findIdx?_eq_some_iff_getElem.mp hidx
          rw [geneCond, List.length_map, hlen] at hlt
          exact hlt
        have hget : structures.get? i = some (structures.get ⟨i, hi⟩) :=
          List.get?_eq_get hi
        obtain ⟨h1, h2⟩ := hg.2 i (structures.get ⟨i, hi⟩) hidx hget hnall
        exact ⟨i, structures.get ⟨i, hi⟩, rfl, hget, h1, h2⟩

def wArr : List (GeneId × List (List ℚ)) :=
  [("g1", [[6, 2], [1, 2]]), ("g2", [[6], [9]])]

def wStructs : List String := ["CA1", "CA3"]

def wUni : List (String × List String) := [("CA1", ["g1"]), ("CA3", [])]

theorem claim_C5_witness :
    (find_uniques_shared wArr wStructs 5 = some (wUni, ["g2"])) ∧
    (("g1", [[(6 : ℚ), 2], [1, 2]]) ∈ wArr) ∧
    (wArr.map Prod.fst).Nodup ∧
    ([[(6 : ℚ), 2], [1, 2]] : List (List ℚ)).length = wStructs.length ∧
    ((("g1" ∈ (["g2"] : List String)) ↔
        ∀ grp ∈ ([[(6 : ℚ), 2], [1, 2]] : List (List ℚ)), ∃ v ∈ grp, (5 : ℚ) ≤ v) ∧
      ((∃ grp ∈ ([[(6 : ℚ), 2], [1, 2]] : List (List ℚ)), ∃ v ∈ grp, (5 : ℚ) ≤ v) ∧
          ¬(∀ grp ∈ ([[(6 : ℚ), 2], [1, 2]] : List (List ℚ)), ∃ v ∈ grp, (5 : ℚ) ≤ v) →
        "g1" ∉ (["g2"] : List String) ∧
        ∃ i s, (geneCond 5 [[(6 : ℚ), 2], [1, 2]]).findIdx? (fun b => b) = some i ∧
          wStructs.get? i = some s ∧
          (∃ lst, List.lookup s wUni = some lst ∧ "g1" ∈ lst) ∧
          (∀ s' lst', s' ≠ s → List.lookup s' wUni = some lst' → "g1" ∉ lst'))) :=
  ⟨by decide, by decide, by decide, by decide,
    claim_C5 wArr wStructs 5 "g1" [[(6 : ℚ), 2], [1, 2]] wUni ["g2"]
      (by decide) (by decide) (by decide) (by decide)⟩

/-- Claim C1, counterexample: a gene all of whose structure-value groups
fail the threshold test is *not* silently dropped with classification
completing normally; on this input `condition.index(True)` raises
`ValueError`, so `find_uniques_shared` fails and produces no outputs. -/
theorem claim_C1_counterexample :
    find_uniques_shared [("729", [[(0 : ℚ)]])] ["PHA"] 5 = none := by decide

/-- Claim C1, amended: for every gene of the input mapping that has at
least one structure-value group and no value meeting the threshold in any
group, `find_uniques_shared` raises `ValueError` (it returns no outputs at
all), instead of dropping the gene and classifying the rest. -/
theorem claim_C1 (array : List (GeneId × List (List ℚ)))
    (structures : List String) (thr : ℚ) (g : GeneId)
    (regions : List (List ℚ)) (hmem : (g, regions) ∈ array)
    (hne : regions ≠ [])
    (hfail : ∀ grp ∈ regions, ∀ v ∈ grp, v < thr) :
    find_uniques_shared array structures thr = none := by
  rw [find_uniques_shared]
  exact fusGo_none structures thr g regions hne hfail array _ [] hmem

theorem claim_C1_witness :
    (("729", [[(0 : ℚ)]]) ∈ ([("729", [[(0 : ℚ)]])] :
        List (GeneId × List (List ℚ)))) ∧
      ([[(0 : ℚ)]] ≠ ([] : List (List ℚ))) ∧
      (∀ grp ∈ [[(0 : ℚ)]], ∀ v ∈ grp, v < (5 : ℚ)) ∧
      find_uniques_shared [("729", [[(0 : ℚ)]])] ["CA1"] 5 = none :=
  ⟨by simp, by simp, by decide,
    claim_C1 [("729", [[(0 : ℚ)]])] ["CA1"] 5 "729" [[(0 : ℚ)]]
      (by simp) (by simp) (by decide)⟩

/-! ## Best-average characterisation of the aggregator -/

/-- Row average of a paired row, as a total function (rows processed
successfully always have a nonempty value list, where this agrees with
`calc_average`). -/
def avgOf (r : MicroRow × Probe) : ℚ := r.1.2.sum / (r.1.2.length : ℚ)

/-- Whether a paired row passes the admission threshold check: some value
among its structure groups meets or exceeds the threshold. -/
def passOf (si : Sidx) (thr : ℚ) (r : MicroRow × Probe) : Bool :=
  match regionValues si r.1.2 with
  | some groups => groups.flatten.any (fun v => decide (thr ≤ v))
  | none => false

/-- The average the aggregator ends up storing for a gene, computed from the
gene's row list: none before any row passes the threshold; afterwards the
maximum row average over the rows from the first passing one onward. -/
def bestAverage (si : Sidx) (thr : ℚ) (rs : List (MicroRow × Probe)) : Option ℚ :=
  match rs.dropWhile (fun r => ! passOf si thr r) with
  | [] => none
  | r :: rest => some (rest.foldl (fun a r2 => max a (avgOf r2)) (avgOf r))

theorem runPairs_append_singleton (thr : ℚ) (si : Sidx)
    (ps : List (MicroRow × Probe)) (r : MicroRow × Probe) :
    ∀ st : AState, runPairs thr si st (ps ++ [r])
      = (runPairs thr si st ps).bind (fun st1 => processPair thr si st1 r) := by
  induction ps with
  | nil =>
      intro st
      rw [List.nil_append, runPairs, runPairs]
      cases hp : processPair thr si st r with
      | none => exact hp.symm
      | some st1 => exact hp.symm
  | cons q rest ih =>
      intro st
      rw [List.cons_append, runPairs, runPairs]
      cases hp : processPair thr si st q with
      | none => simp
      | some st1 => exact ih st1

theorem dropWhile_append_eq {α : Type} (p : α → Bool) (xs ys : List α) :
    (xs ++ ys).dropWhile p =
      match xs.dropWhile p with
      | [] => ys.dropWhile p
      | x :: t => x :: (t ++ ys) := by
  induction xs with
  | nil => simp
  | cons x t ih =>
      by_cases hx : p x
      · rw [List.cons_append, List.dropWhile_cons_of_pos hx,
          List.dropWhile_cons_of_pos hx, ih]
      · rw [List.cons_append, List.dropWhile_cons_of_neg hx,
          List.dropWhile_cons_of_neg hx]

theorem bestAverage_append_singleton (si : Sidx) (thr : ℚ)
    (rs : List (MicroRow × Probe)) (r : MicroRow × Probe) :
    bestAverage si thr (rs ++ [r]) =
      match bestAverage si thr rs with
      | none => if passOf si thr r then some (avgOf r) else none
      | some a => some (max a (avgOf r)) := by
  rw [bestAverage, bestAverage,
    dropWhile_append_eq (fun r => ! passOf si thr r) rs [r]]
  cases hdw : rs.dropWhile (fun r => ! passOf si thr r) with
  | nil =>
      by_cases hp : passOf si thr r
      · rw [List.dropWhile_cons_of_neg (by simp [hp])]
        simp [hp, List.dropWhile_nil]
      · rw [List.dropWhile_cons_of_pos (by simp [hp])]
        simp [hp, List.dropWhile_nil]
  | cons r0 t =>
      simp only [List.foldl_append, List.foldl_cons, List.foldl_nil]

theorem processData_averages (thr : ℚ) (si : Sidx) (d d' : AData)
    (r : MicroRow × Probe) (h : processData thr si d r = some d')
    (hk : keysOk d) :
    (∀ g, g ≠ r.2.gene_id →
      List.lookup g d'.averages = List.lookup g d.averages) ∧
    List.lookup r.2.gene_id d'.averages =
      (match List.lookup r.2.gene_id d.averages with
       | none => if passOf si thr r then some (avgOf r) else none
       | some a => some (max a (avgOf r))) := by
  obtain ⟨micro, probe⟩ := r
  cases ha : calc_average micro.2 with
  | none => rw [processData, ha] at h; exact absurd h (by simp)
  | some avg =>
      cases hg : regionValues si micro.2 with
      | none => rw [processData, ha, hg] at h; exact absurd h (by simp)
      | some groups =>
          have havg : avg = avgOf (micro, probe) := by
            rw [calc_average] at ha
            by_cases he : micro.2.isEmpty
            · rw [if_pos he] at ha
              exact absurd ha (by simp)
            · rw [if_neg he] at ha
              injection ha with ha
              rw [avgOf, ← ha]
          have hpass : passOf si thr (micro, probe)
              = groups.flatten.any (fun v => decide (thr ≤ v)) := by
            rw [passOf]
            show (match regionValues si micro.2 with
              | some groups => groups.flatten.any (fun v => decide (thr ≤ v))
              | none => false) = _
            rw [hg]
          rw [processData_eq thr si d micro probe avg groups ha hg] at h
          by_cases hseen : (List.lookup probe.gene_id d.probes).isSome
          · rw [if_pos hseen] at h
            have hsav : (List.lookup probe.gene_id d.averages).isSome = true := by
              rw [← lookup_isSome_congr d.probes d.averages hk.1]
              exact hseen
            cases hs : List.lookup probe.gene_id d.averages with
            | none => rw [hs] at hsav; exact absurd hsav (by simp)
            | some stored =>
                rw [hs] at h
                by_cases hlt : stored < max stored avg
                · simp only [hlt, if_true, Option.some.injEq] at h
                  rw [← h]
                  constructor
                  · intro g hne
                    exact lookup_dictSet_ne d.averages probe.gene_id g _ hne
                  · show List.lookup probe.gene_id
                        (dictSet d.averages probe.gene_id (max stored avg))
                      = some (max stored (avgOf (micro, probe)))
                    rw [lookup_dictSet_self, havg]
                · simp only [hlt, if_false, Option.some.injEq] at h
                  rw [← h]
                  constructor
                  · intro g hne; rfl
                  · show List.lookup probe.gene_id d.averages
                      = some (max stored (avgOf (micro, probe)))
                    have hmax : max stored avg = stored :=
                      le_antisymm (not_lt.mp hlt) (le_max_left _ _)
                    rw [hs, ← havg, hmax]
          · rw [if_neg hseen] at h
            have hsav : List.lookup probe.gene_id d.averages = none := by
              have := lookup_isSome_congr d.probes d.averages hk.1 probe.gene_id
              rw [Option.not_isSome_iff_eq_none] at hseen
              rw [hseen] at this
              exact Option.not_isSome_iff_eq_none.mp (by rw [← this]; simp)
            by_cases hpassb : groups.flatten.any (fun v => decide (thr ≤ v))
            · rw [if_pos hpassb] at h
              injection h with h
              rw [← h]
              constructor
              · intro g hne
                exact lookup_dictSet_ne d.averages probe.gene_id g _ hne
              · rw [hsav]
                simp only [updateData]
                rw [lookup_dictSet_self, havg, hpass, hpassb]
                rfl
            · rw [if_neg hpassb] at h
              injection h with h
              rw [← h]
              constructor
              · intro g hne; rfl
              · rw [hsav, hpass]
                simp [hpassb]

theorem runPairs_averages (thr : ℚ) (si : Sidx) (ps : List (MicroRow × Probe))
    (st : AState) (h : runPairs thr si initAState ps = some st) :
    ∀ g, List.lookup g st.data.averages
      = bestAverage si thr (ps.filter (fun r => decide (r.2.gene_id = g))) := by
  induction ps using List.reverseRecOn generalizing st with
  | nil =>
      rw [runPairs] at h
      injection h with h
      rw [← h]
      intro g
      rfl
  | append_singleton ps r ih =>
      rw [runPairs_append_singleton] at h
      cases h1 : runPairs thr si initAState ps with
      | none => rw [h1] at h; exact absurd h (by simp)
      | some st1 =>
          rw [h1] at h
          replace h : processPair thr si st1 r = some st := h
          have hk : keysOk st1.data :=
            runPairs_keysOk thr si ps initAState st1 h1 ⟨rfl, rfl⟩
          have hd : processData thr si st1.data r = some st.data :=
            processPair_some thr si st1 st r h
          have pa := processData_averages thr si st1.data st.data r hd hk
          intro g
          rw [List.filter_append]
          by_cases hgg : r.2.gene_id = g
          · have hfr : List.filter (fun r => decide (r.2.gene_id = g)) [r] = [r] := by
              simp [hgg]
            rw [hfr, bestAverage_append_singleton, ← ih st1 h1 g, ← hgg]
            exact pa.2
          · have hfr : List.filter (fun r => decide (r.2.gene_id = g)) [r] = [] := by
              simp [hgg]
            rw [hfr, List.append_nil, ← ih st1 h1 g]
            exact pa.1 g (fun hc => hgg hc.symm)

/-- Claim C3, counterexample: gene 729 has two rows; the first (average
101/2) fails the threshold check (group value 1 < 5) and is never admitted,
the second (average 3) is admitted.  The stored average is 3, not the
maximum row average 101/2 over all probe rows sharing the gene, refuting
the claim as stated. -/
theorem claim_C3_counterexample :
    (runPairs 5 siPHA initAState
        [(("1058685", [1, 100]), probeOne), (("1058684", [6, 0]), probeTwo)]).map
        (fun st => List.lookup "729" st.data.averages) = some (some 3) ∧
    avgOf (("1058685", [(1 : ℚ), 100]), probeOne) = 101 / 2 ∧
    avgOf (("1058684", [(6 : ℚ), 0]), probeTwo) = 3 ∧
    ¬ ((3 : ℚ) = max (101 / 2) 3) := by
  have ha1 : calc_average [(1 : ℚ), 100] = some (101 / 2) := by
    norm_num [calc_average]
  have ha2 : calc_average [(6 : ℚ), 0] = some 3 := by
    norm_num [calc_average]
  have hg1 : regionValues siPHA [(1 : ℚ), 100] = some [[1]] := by decide
  have hg2 : regionValues siPHA [(6 : ℚ), 0] = some [[6]] := by decide
  refine ⟨?_, by norm_num [avgOf], by norm_num [avgOf], ?_⟩
  · norm_num [runPairs, processPair, processData, ha1, ha2, hg1, hg2,
      updateData, initAState, dictSet, List.lookup, probeOne, probeTwo]
  · rw [max_eq_left (by norm_num : (3 : ℚ) ≤ 101 / 2)]
    norm_num

/-- Claim C3, amended: for every run of the aggregator, the stored average
of each gene equals the maximum row average over the gene's paired rows
from its first threshold-passing row onward (genes with no passing row are
absent).  Rows of the gene occurring before its first threshold-passing
row are not considered, and their averages may exceed the stored one. -/
theorem claim_C3 (micro : List MicroRow) (probeRows : List Probe) (si : Sidx)
    (thr : ℚ) (st : AState)
    (h : runPairs thr si initAState (micro.zip probeRows) = some st) :
    ∀ g, List.lookup g st.data.averages
      = bestAverage si thr
          ((micro.zip probeRows).filter (fun r => decide (r.2.gene_id = g))) :=
  runPairs_averages thr si (micro.zip probeRows) st h

def wSt : AState :=
  ⟨⟨[("729", probeOne)], [("729", 7)], [("729", [[7]])]⟩, []⟩

theorem claim_C3_witness :
    (runPairs 5 siPHA initAState
        (([("1058685", [(7 : ℚ)])] : List MicroRow).zip [probeOne]) = some wSt) ∧
    (∀ g, List.lookup g wSt.data.averages
      = bestAverage siPHA 5
          ((([("1058685", [(7 : ℚ)])] : List MicroRow).zip [probeOne]).filter
            (fun r => decide (r.2.gene_id = g)))) := by
  have ha : calc_average [(7 : ℚ)] = some 7 := by norm_num [calc_average]
  have hg : regionValues siPHA [(7 : ℚ)] = some [[7]] := by decide
  have hrun : runPairs 5 siPHA initAState
      (([("1058685", [(7 : ℚ)])] : List MicroRow).zip [probeOne]) = some wSt := by
    norm_num [runPairs, processPair, processData, ha, hg, updateData,
      initAState, probeOne, dictSet, List.lookup, wSt]
  exact ⟨hrun, claim_C3 [("1058685", [(7 : ℚ)])] [probeOne] siPHA 5 wSt hrun⟩

end PDB
